import Mathlib

/-!
Verification development for the WallWhaleExtension resilience layer:
the `SmartCache` (TTL + LRU eviction), the `CircuitBreaker` (with an
exponential-backoff variant), the `ConnectionPool` (bounded concurrency,
priority queue, retry with backoff), and the `OptimizedDownloadApiSdk`
request-deduplication layer.

The embedding is shallow: each TypeScript class becomes a Lean structure and
each method a pure function with explicit state and an explicit `now : Nat`
clock (the TypeScript code reads `Date.now()`).  A JavaScript `Map` is
modelled as an association list with the `Map` operations (`get`, `set`,
`delete`); `Map.set` keeps the position of an existing key and appends new
keys at the end, which is exactly the iteration-order behaviour the LRU
eviction scan depends on.
-/

namespace WallWhale

/-! ## Association-list model of a JavaScript `Map` keyed by strings -/

/-- `Map.get`: first binding of key `k`, if any. -/
def lookupKey {β : Type} (k : String) : List (String × β) → Option β
  | [] => none
  | kv :: rest => if kv.1 = k then some kv.2 else lookupKey k rest

/-- `Map.delete`: remove the binding of key `k`. -/
def removeKey {β : Type} (k : String) : List (String × β) → List (String × β)
  | [] => []
  | kv :: rest => if kv.1 = k then removeKey k rest else kv :: removeKey k rest

/-- Update the binding of an existing key in place (position preserved). -/
def updKey {β : Type} (k : String) (b : β) : List (String × β) → List (String × β)
  | [] => []
  | kv :: rest => if kv.1 = k then (k, b) :: updKey k b rest else kv :: updKey k b rest

/-- `Map.set`: overwrite an existing key in place, otherwise append at the end. -/
def setKey {β : Type} (k : String) (b : β) (l : List (String × β)) :
    List (String × β) :=
  if (lookupKey k l).isSome then updKey k b l else l ++ [(k, b)]

theorem lookupKey_removeKey_self {β : Type} (k : String) (l : List (String × β)) :
    lookupKey k (removeKey k l) = none := by
  induction l with
  | nil => rfl
  | cons kv rest ih =>
    by_cases h : kv.1 = k <;> simp [removeKey, lookupKey, h, ih]

theorem lookupKey_removeKey_ne {β : Type} {j k : String} (h : j ≠ k)
    (l : List (String × β)) :
    lookupKey j (removeKey k l) = lookupKey j l := by
  induction l with
  | nil => rfl
  | cons kv rest ih =>
    by_cases hk : kv.1 = k
    · simp [removeKey, lookupKey, hk, ih, Ne.symm h]
    · by_cases hj : kv.1 = j <;> simp [removeKey, lookupKey, hk, hj, ih, h]

theorem lookupKey_updKey_self {β : Type} (k : String) (b : β)
    (l : List (String × β)) (h : (lookupKey k l).isSome) :
    lookupKey k (updKey k b l) = some b := by
  induction l with
  | nil => simp [lookupKey] at h
  | cons kv rest ih =>
    by_cases hk : kv.1 = k
    · simp [updKey, lookupKey, hk]
    · simp [lookupKey, hk] at h
      simp [updKey, lookupKey, hk, ih h]

theorem lookupKey_append_right {β : Type} (k : String)
    (l l2 : List (String × β)) (h : lookupKey k l = none) :
    lookupKey k (l ++ l2) = lookupKey k l2 := by
  induction l with
  | nil => rfl
  | cons kv rest ih =>
    by_cases hk : kv.1 = k
    · simp [lookupKey, hk] at h
    · simp only [lookupKey, hk, if_false, List.cons_append, if_neg hk] at h ⊢
      exact ih h

theorem lookupKey_append_left {β : Type} (k : String) (v : β)
    (l l2 : List (String × β)) (h : lookupKey k l = some v) :
    lookupKey k (l ++ l2) = some v := by
  induction l with
  | nil => simp [lookupKey] at h
  | cons kv rest ih =>
    by_cases hk : kv.1 = k
    · simp only [lookupKey, if_pos hk, List.cons_append] at h ⊢
      exact h
    · simp only [lookupKey, if_neg hk, List.cons_append] at h ⊢
      exact ih h

theorem lookupKey_setKey_self {β : Type} (k : String) (b : β)
    (l : List (String × β)) :
    lookupKey k (setKey k b l) = some b := by
  unfold setKey
  by_cases h : (lookupKey k l).isSome
  · simp [h, lookupKey_updKey_self k b l h]
  · have hn : lookupKey k l = none := by
      cases hl : lookupKey k l
      · rfl
      · rw [hl] at h; simp at h
    simp [h, lookupKey_append_right k l [(k, b)] hn, lookupKey]

theorem lookupKey_updKey_ne {β : Type} {j k : String} (h : j ≠ k) (b : β)
    (l : List (String × β)) :
    lookupKey j (updKey k b l) = lookupKey j l := by
  induction l with
  | nil => rfl
  | cons kv rest ih =>
    by_cases hk : kv.1 = k
    · simp [updKey, lookupKey, hk, ih, Ne.symm h]
    · by_cases hj : kv.1 = j <;> simp [updKey, lookupKey, hk, hj, ih, h]

theorem lookupKey_setKey_ne {β : Type} {j k : String} (h : j ≠ k) (b : β)
    (l : List (String × β)) :
    lookupKey j (setKey k b l) = lookupKey j l := by
  unfold setKey
  by_cases hs : (lookupKey k l).isSome
  · simp [hs, lookupKey_updKey_ne h b l]
  · cases hl : lookupKey j l with
    | none =>
      rw [if_neg hs, lookupKey_append_right j l [(k, b)] hl]
      simp [lookupKey, Ne.symm h]
    | some v =>
      rw [if_neg hs, lookupKey_append_left j v l [(k, b)] hl]

theorem length_updKey {β : Type} (k : String) (b : β) (l : List (String × β)) :
    (updKey k b l).length = l.length := by
  induction l with
  | nil => rfl
  | cons kv rest ih =>
    by_cases hk : kv.1 = k <;> simp [updKey, hk, ih]

theorem length_setKey_of_mem {β : Type} (k : String) (b : β)
    (l : List (String × β)) (h : (lookupKey k l).isSome) :
    (setKey k b l).length = l.length := by
  simp [setKey, h, length_updKey]

theorem length_removeKey_lt {β : Type} (k : String) (l : List (String × β))
    (h : (lookupKey k l).isSome) :
    (removeKey k l).length < l.length := by
  induction l with
  | nil => simp [lookupKey] at h
  | cons kv rest ih =>
    by_cases hk : kv.1 = k
    · have : (removeKey k rest).length ≤ rest.length := by
        clear ih h
        induction rest with
        | nil => simp [removeKey]
        | cons kv2 r2 ih2 =>
          by_cases h2 : kv2.1 = k <;> simp [removeKey, h2] <;> omega
      simp [removeKey, hk]; omega
    · simp [lookupKey, hk] at h
      simp [removeKey, hk]
      exact ih h

/-! ## SmartCache (smart-cache.ts)

`SmartCache` holds a `Map<string, CacheEntry>`; every method reads the wall
clock, so each Lean counterpart takes an explicit `now`. -/

structure CacheEntry (V : Type) where
  data : V
  timestamp : Nat
  ttl : Nat
  accessCount : Nat
  lastAccessed : Nat
deriving DecidableEq, Repr

structure CacheOptions where
  defaultTtl : Nat
  maxSize : Nat
  enableCompression : Bool
deriving DecidableEq, Repr

structure SmartCache (V : Type) where
  entries : List (String × CacheEntry V)
deriving DecidableEq, Repr

def SmartCache.empty {V : Type} : SmartCache V := ⟨[]⟩

/-- `compress` is the identity placeholder from the source. -/
def compress {V : Type} (data : V) : V := data

/-- `decompress` is the identity placeholder from the source. -/
def decompress {V : Type} (data : V) : V := data

/-- The scan inside `evictLRU`: starting from `lruKey = ""` and
`lruTime = Date.now()`, keep the entry whose `lastAccessed` is strictly
smaller than the current minimum. -/
def lruScan {V : Type} (now : Nat) (l : List (String × CacheEntry V)) :
    String × Nat :=
  l.foldl
    (fun acc kv =>
      if kv.2.lastAccessed < acc.2 then (kv.1, kv.2.lastAccessed) else acc)
    ("", now)

/-- `evictLRU()`: delete the selected key, unless the selected key is the
falsy empty string (the initial value of `lruKey`). -/
def SmartCache.evictLRU {V : Type} (c : SmartCache V) (now : Nat) :
    SmartCache V :=
  let lruKey := (lruScan now c.entries).1
  if lruKey = "" then c else ⟨removeKey lruKey c.entries⟩

/-- Effective TTL of a `set`: the JavaScript `ttl || this.options.defaultTtl`
falls back to the default both when `ttl` is omitted and when it is `0`. -/
def effectiveTtl (o : CacheOptions) (ttlArg : Option Nat) : Nat :=
  match ttlArg with
  | none => o.defaultTtl
  | some t => if t = 0 then o.defaultTtl else t

/-- `set(key, data, ttl?)`: evict first when `size >= maxSize`, then insert
a fresh entry (`accessCount = 0`, both timestamps `now`). -/
def SmartCache.set {V : Type} (o : CacheOptions) (c : SmartCache V)
    (key : String) (data : V) (ttlArg : Option Nat) (now : Nat) :
    SmartCache V :=
  let c1 := if o.maxSize ≤ c.entries.length then c.evictLRU now else c
  let entry : CacheEntry V :=
    { data := if o.enableCompression then compress data else data
      timestamp := now
      ttl := effectiveTtl o ttlArg
      accessCount := 0
      lastAccessed := now }
  ⟨setKey key entry c1.entries⟩

/-- `get(key)`: absent if never set; expired entries are deleted and reported
absent; live entries get their access statistics bumped. -/
def SmartCache.get {V : Type} (o : CacheOptions) (c : SmartCache V)
    (key : String) (now : Nat) : Option V × SmartCache V :=
  match lookupKey key c.entries with
  | none => (none, c)
  | some entry =>
    if entry.ttl < now - entry.timestamp then
      (none, ⟨removeKey key c.entries⟩)
    else
      let entry2 :=
        { entry with
            accessCount := entry.accessCount + 1
            lastAccessed := now }
      (some (if o.enableCompression then decompress entry2.data else entry2.data),
       ⟨updKey key entry2 c.entries⟩)

/-- `delete(key)`. -/
def SmartCache.deleteKey {V : Type} (c : SmartCache V) (key : String) :
    SmartCache V :=
  ⟨removeKey key c.entries⟩

/-! ## CircuitBreaker (circuit-breaker.ts) -/

inductive CircuitState where
  | CLOSED
  | OPEN
  | HALF_OPEN
deriving DecidableEq, Repr

structure CircuitBreakerOptions where
  failureThreshold : Nat
  recoveryTimeout : Nat
  monitoringPeriod : Nat
  successThreshold : Nat
deriving DecidableEq, Repr

structure CircuitBreaker where
  failures : Nat
  successes : Nat
  totalRequests : Nat
  lastFailureTime : Nat
  state : CircuitState
deriving DecidableEq, Repr

/-- A freshly constructed breaker: all counters zero, state CLOSED. -/
def CircuitBreaker.init : CircuitBreaker :=
  { failures := 0, successes := 0, totalRequests := 0,
    lastFailureTime := 0, state := .CLOSED }

/-- `reset()`: counters to zero, state CLOSED. -/
def CircuitBreaker.reset (b : CircuitBreaker) : CircuitBreaker :=
  { b with failures := 0, successes := 0, state := .CLOSED }

/-- `onSuccess()`. -/
def CircuitBreaker.onSuccess (o : CircuitBreakerOptions) (b : CircuitBreaker) :
    CircuitBreaker :=
  let b1 := { b with successes := b.successes + 1 }
  if b1.state = .HALF_OPEN then
    if o.successThreshold ≤ b1.successes then b1.reset else b1
  else b1

/-- `onFailure()`: record the failure time and trip when the failure count
reaches the threshold. -/
def CircuitBreaker.onFailure (o : CircuitBreakerOptions) (b : CircuitBreaker)
    (now : Nat) : CircuitBreaker :=
  let b1 := { b with failures := b.failures + 1, lastFailureTime := now }
  if o.failureThreshold ≤ b1.failures then { b1 with state := .OPEN } else b1

/-- `shouldAttemptReset()` of the base class:
`Date.now() - lastFailureTime > recoveryTimeout` (strict). -/
def CircuitBreaker.shouldAttemptReset (o : CircuitBreakerOptions)
    (b : CircuitBreaker) (now : Nat) : Bool :=
  o.recoveryTimeout < now - b.lastFailureTime

/-- `calculateBackoffTime()` of `ExponentialBackoffCircuitBreaker`:
`min(recoveryTimeout * backoffMultiplier ^ min(failures, 10), maxBackoffTime)`. -/
def calculateBackoffTime (o : CircuitBreakerOptions)
    (backoffMultiplier maxBackoffTime : Nat) (b : CircuitBreaker) : Nat :=
  min (o.recoveryTimeout * backoffMultiplier ^ (min b.failures 10))
    maxBackoffTime

/-- Overridden `shouldAttemptReset()` of the exponential-backoff subclass. -/
def shouldAttemptResetExponential (o : CircuitBreakerOptions)
    (backoffMultiplier maxBackoffTime : Nat) (b : CircuitBreaker)
    (now : Nat) : Bool :=
  calculateBackoffTime o backoffMultiplier maxBackoffTime b <
    now - b.lastFailureTime

/-- The OPEN-state gate at the top of `execute`: `none` means the call throws
the circuit-open error without invoking the wrapped function; `some b2` means
the wrapped function is invoked with the breaker in state `b2`.  The reset
check is a parameter because the subclass overrides it. -/
def CircuitBreaker.gateWith (resetCheck : CircuitBreaker → Nat → Bool)
    (b : CircuitBreaker) (now : Nat) : Option CircuitBreaker :=
  if b.state = .OPEN then
    if resetCheck b now then some { b with state := .HALF_OPEN } else none
  else some b

inductive ExecOutcome where
  /-- The circuit-open error was thrown; the wrapped function did not run. -/
  | circuitOpen
  /-- The wrapped function ran and succeeded. -/
  | succeeded
  /-- The wrapped function ran, failed, and the error was rethrown. -/
  | failed
deriving DecidableEq, Repr

/-- `execute(fn)` with an abstract reset check; `fnSucceeds` is the outcome
the wrapped function would produce if invoked. -/
def CircuitBreaker.executeWith (resetCheck : CircuitBreaker → Nat → Bool)
    (o : CircuitBreakerOptions) (b : CircuitBreaker) (now : Nat)
    (fnSucceeds : Bool) : CircuitBreaker × ExecOutcome :=
  let b1 := { b with totalRequests := b.totalRequests + 1 }
  match b1.gateWith resetCheck now with
  | none => (b1, .circuitOpen)
  | some b2 =>
    if fnSucceeds then (b2.onSuccess o, .succeeded)
    else (b2.onFailure o now, .failed)

/-- `execute(fn)` of the base `CircuitBreaker`. -/
def CircuitBreaker.execute (o : CircuitBreakerOptions) (b : CircuitBreaker)
    (now : Nat) (fnSucceeds : Bool) : CircuitBreaker × ExecOutcome :=
  b.executeWith (fun b2 t => b2.shouldAttemptReset o t) o now fnSucceeds

/-- `execute(fn)` of `ExponentialBackoffCircuitBreaker` (inherited body,
overridden reset check). -/
def executeExponential (o : CircuitBreakerOptions)
    (backoffMultiplier maxBackoffTime : Nat) (b : CircuitBreaker)
    (now : Nat) (fnSucceeds : Bool) : CircuitBreaker × ExecOutcome :=
  b.executeWith
    (fun b2 t => shouldAttemptResetExponential o backoffMultiplier
      maxBackoffTime b2 t)
    o now fnSucceeds

/-- Run a sequence of `execute` calls; each event is a pair of the call time
and the outcome the wrapped function would produce.  Returns the final
breaker together with the number of times the wrapped function was actually
invoked. -/
def runBreaker (o : CircuitBreakerOptions) (b : CircuitBreaker) :
    List (Nat × Bool) → CircuitBreaker × Nat
  | [] => (b, 0)
  | e :: es =>
    let r := b.execute o e.1 e.2
    let rest := runBreaker o r.1 es
    (rest.1, (if r.2 = .circuitOpen then 0 else 1) + rest.2)

theorem runBreaker_append (o : CircuitBreakerOptions) (b : CircuitBreaker)
    (l1 l2 : List (Nat × Bool)) :
    runBreaker o b (l1 ++ l2) =
      ((runBreaker o (runBreaker o b l1).1 l2).1,
       (runBreaker o b l1).2 + (runBreaker o (runBreaker o b l1).1 l2).2) := by
  induction l1 generalizing b with
  | nil => simp [runBreaker]
  | cons e es ih =>
    simp [runBreaker, ih]
    omega

/-- Last element of a time list, with default. -/
def lastD (d : Nat) : List Nat → Nat
  | [] => d
  | t :: ts => lastD t ts

/-- A trace of failing `execute` calls at the given times. -/
def failTrace (ts : List Nat) : List (Nat × Bool) :=
  ts.map fun t => (t, false)

/-- A trace of successful `execute` calls at the given times. -/
def successTrace (ts : List Nat) : List (Nat × Bool) :=
  ts.map fun t => (t, true)

/-- Running consecutive failing calls from a CLOSED breaker that stays at or
below the failure threshold: every call invokes the wrapped function, the
failure count grows by one per call, and the breaker ends OPEN exactly when
the threshold is reached by a nonempty trace. -/
theorem runBreaker_failures (o : CircuitBreakerOptions) (ts : List Nat)
    (b : CircuitBreaker) (hb : b.state = .CLOSED)
    (hth : b.failures + ts.length ≤ o.failureThreshold) :
    (runBreaker o b (failTrace ts)).2 = ts.length ∧
    (runBreaker o b (failTrace ts)).1.failures = b.failures + ts.length ∧
    (runBreaker o b (failTrace ts)).1.successes = b.successes ∧
    (runBreaker o b (failTrace ts)).1.lastFailureTime =
      lastD b.lastFailureTime ts ∧
    (runBreaker o b (failTrace ts)).1.state =
      (if b.failures + ts.length = o.failureThreshold ∧ ts ≠ [] then
        CircuitState.OPEN else CircuitState.CLOSED) := by
  induction ts generalizing b with
  | nil => simp [failTrace, runBreaker, lastD, hb]
  | cons t rest ih =>
    simp only [List.length_cons] at hth
    have hstep : b.execute o t false =
        (CircuitBreaker.onFailure o
          { b with totalRequests := b.totalRequests + 1 } t,
         ExecOutcome.failed) := by
      simp [CircuitBreaker.execute, CircuitBreaker.executeWith,
        CircuitBreaker.gateWith, hb]
    by_cases hhit : o.failureThreshold ≤ b.failures + 1
    · have hrest : rest = [] := by
        have : rest.length = 0 := by omega
        exact List.length_eq_zero.mp this
      subst hrest
      have heq : b.failures + 1 = o.failureThreshold := by omega
      have hopen : CircuitBreaker.onFailure o
          { b with totalRequests := b.totalRequests + 1 } t =
          { b with totalRequests := b.totalRequests + 1,
                   failures := b.failures + 1, lastFailureTime := t,
                   state := .OPEN } := by
        simp [CircuitBreaker.onFailure, hhit]
      simp [failTrace, runBreaker, hstep, hopen, lastD, heq]
    · have hcl : CircuitBreaker.onFailure o
          { b with totalRequests := b.totalRequests + 1 } t =
          { b with totalRequests := b.totalRequests + 1,
                   failures := b.failures + 1, lastFailureTime := t } := by
      -- state unchanged (CLOSED) because the threshold is not reached
        simp [CircuitBreaker.onFailure, hhit]
    -- apply the induction hypothesis to the post-failure breaker
      have ihr := ih
        { b with
            totalRequests := b.totalRequests + 1
            failures := b.failures + 1
            lastFailureTime := t }
        hb (by show b.failures + 1 + rest.length ≤ o.failureThreshold; omega)
      simp only [failTrace, List.map_cons, runBreaker, hstep, hcl] at ihr ⊢
      obtain ⟨ih1, ih2, ih3, ih4, ih5⟩ := ihr
      refine ⟨?_, ?_, ?_, ?_, ?_⟩
      · simp only [ih1]
        simp
        omega
      · rw [ih2]
        show b.failures + 1 + rest.length = b.failures + (rest.length + 1)
        omega
      · rw [ih3]
      · rw [ih4]
        rfl
      · rw [ih5]
        by_cases hre : rest = []
        · subst hre
          have hne2 : ¬(b.failures + 1 = o.failureThreshold) := by omega
          simp [hne2]
        · have hcond : (b.failures + 1 + List.length rest = o.failureThreshold
              ∧ ¬rest = []) ↔
              (b.failures + (List.length rest + 1) = o.failureThreshold
              ∧ ¬(t :: rest) = []) := by
            simp [hre]
            omega
          simp only [ne_eq, hcond]
          simp

/-- An `execute` call on an OPEN breaker within the recovery timeout only
bumps `totalRequests` and reports the circuit-open error. -/
theorem execute_open_blocked (o : CircuitBreakerOptions) (b : CircuitBreaker)
    (t : Nat) (fnS : Bool) (hb : b.state = .OPEN)
    (h : t - b.lastFailureTime ≤ o.recoveryTimeout) :
    (b.execute o t fnS).2 = ExecOutcome.circuitOpen ∧
    (b.execute o t fnS).1 = { b with totalRequests := b.totalRequests + 1 } := by
  simp [CircuitBreaker.execute, CircuitBreaker.executeWith,
    CircuitBreaker.gateWith, hb, CircuitBreaker.shouldAttemptReset,
    Nat.not_lt.mpr h]

/-- Claim C1: after `failureThreshold` consecutive failing executions from a
fresh breaker the state is OPEN, and a further `execute` call made while the
recovery timeout since the last failure has not yet elapsed throws the
circuit-open error without invoking the wrapped function, leaving the
invocation count at `failureThreshold`. -/
theorem claim_C1 (o : CircuitBreakerOptions) (ts : List Nat) (t : Nat)
    (hlen : ts.length = o.failureThreshold)
    (hpos : 0 < o.failureThreshold)
    (hnotelapsed : t - lastD 0 ts ≤ o.recoveryTimeout) :
    (runBreaker o CircuitBreaker.init (failTrace ts)).1.state =
      CircuitState.OPEN ∧
    (runBreaker o CircuitBreaker.init (failTrace ts)).2 =
      o.failureThreshold ∧
    ((runBreaker o CircuitBreaker.init (failTrace ts)).1.execute o t
      true).2 = ExecOutcome.circuitOpen ∧
    (runBreaker o CircuitBreaker.init
      (failTrace ts ++ [(t, true)])).2 = o.failureThreshold := by
  have hne : ts ≠ [] := by
    intro h
    rw [h] at hlen
    simp at hlen
    omega
  have hrun := runBreaker_failures o ts CircuitBreaker.init rfl
    (by simp [CircuitBreaker.init]; omega)
  have hstate : (runBreaker o CircuitBreaker.init (failTrace ts)).1.state =
      CircuitState.OPEN := by
    rw [hrun.2.2.2.2]
    simp [CircuitBreaker.init, hlen, hne]
  have hlast : (runBreaker o CircuitBreaker.init
      (failTrace ts)).1.lastFailureTime = lastD 0 ts := by
    simpa [CircuitBreaker.init] using hrun.2.2.2.1
  have hopencall : ((runBreaker o CircuitBreaker.init
      (failTrace ts)).1.execute o t true).2 = ExecOutcome.circuitOpen :=
    (execute_open_blocked o _ t true hstate (by rw [hlast]; exact hnotelapsed)).1
  refine ⟨hstate, by rw [hrun.1, hlen], hopencall, ?_⟩
  rw [runBreaker_append]
  simp [runBreaker, hopencall]
  rw [hrun.1, hlen]

/-- Witness for claim C1: threshold 3, three failures at times 1,2,3, a
fourth call at time 50 with the 100ms recovery timeout not elapsed. -/
theorem claim_C1_witness :
    (runBreaker ⟨3, 100, 10000, 3⟩ CircuitBreaker.init
      (failTrace [1, 2, 3])).1.state = CircuitState.OPEN ∧
    (runBreaker ⟨3, 100, 10000, 3⟩ CircuitBreaker.init
      (failTrace [1, 2, 3])).2 = 3 ∧
    ((runBreaker ⟨3, 100, 10000, 3⟩ CircuitBreaker.init
      (failTrace [1, 2, 3])).1.execute ⟨3, 100, 10000, 3⟩ 50 true).2 =
      ExecOutcome.circuitOpen ∧
    (runBreaker ⟨3, 100, 10000, 3⟩ CircuitBreaker.init
      (failTrace [1, 2, 3] ++ [(50, true)])).2 = 3 :=
  claim_C1 ⟨3, 100, 10000, 3⟩ [1, 2, 3] 50 (by decide) (by decide) (by decide)

theorem successTrace_append (l1 l2 : List Nat) :
    successTrace (l1 ++ l2) = successTrace l1 ++ successTrace l2 := by
  simp [successTrace]

/-- Successful calls on a HALF_OPEN breaker that stay strictly below the
success threshold keep the breaker half-open and only bump the success
count. -/
theorem runBreaker_halfOpen_below (o : CircuitBreakerOptions) (ts : List Nat)
    (b : CircuitBreaker) (hb : b.state = .HALF_OPEN)
    (hlt : b.successes + ts.length < o.successThreshold) :
    (runBreaker o b (successTrace ts)).1.state = CircuitState.HALF_OPEN ∧
    (runBreaker o b (successTrace ts)).1.successes =
      b.successes + ts.length ∧
    (runBreaker o b (successTrace ts)).1.failures = b.failures ∧
    (runBreaker o b (successTrace ts)).2 = ts.length := by
  induction ts generalizing b with
  | nil => simp [successTrace, runBreaker, hb]
  | cons t rest ih =>
    simp only [List.length_cons] at hlt
    have hnothit : ¬ o.successThreshold ≤ b.successes + 1 := by omega
    have hstep : b.execute o t true =
        ({ b with totalRequests := b.totalRequests + 1,
                  successes := b.successes + 1 },
         ExecOutcome.succeeded) := by
      simp [CircuitBreaker.execute, CircuitBreaker.executeWith,
        CircuitBreaker.gateWith, CircuitBreaker.onSuccess, hb, hnothit]
    have ihr := ih
      { b with
          totalRequests := b.totalRequests + 1
          successes := b.successes + 1 }
      hb (by show b.successes + 1 + rest.length < o.successThreshold; omega)
    simp only [successTrace, List.map_cons, runBreaker, hstep] at ihr ⊢
    obtain ⟨ih1, ih2, ih3, ih4⟩ := ihr
    refine ⟨ih1, ?_, ih3, ?_⟩
    · rw [ih2]
      show b.successes + 1 + rest.length = b.successes + (rest.length + 1)
      omega
    · simp only [ih4]
      simp
      omega

/-- The success that reaches the success threshold while HALF_OPEN resets the
breaker: state CLOSED, failure and success counters zero. -/
theorem execute_halfOpen_closes (o : CircuitBreakerOptions)
    (b : CircuitBreaker) (t : Nat) (hb : b.state = .HALF_OPEN)
    (hth : o.successThreshold ≤ b.successes + 1) :
    b.execute o t true =
      ({ b with totalRequests := b.totalRequests + 1, failures := 0,
                successes := 0, state := .CLOSED },
       ExecOutcome.succeeded) := by
  simp [CircuitBreaker.execute, CircuitBreaker.executeWith,
    CircuitBreaker.gateWith, CircuitBreaker.onSuccess, CircuitBreaker.reset,
    hb, hth]

/-- Successful calls on a CLOSED breaker keep it closed; only the success
count (and `totalRequests`) grows. -/
theorem runBreaker_closed_successes (o : CircuitBreakerOptions)
    (ts : List Nat) (b : CircuitBreaker) (hb : b.state = .CLOSED) :
    (runBreaker o b (successTrace ts)).1.state = CircuitState.CLOSED ∧
    (runBreaker o b (successTrace ts)).1.failures = b.failures ∧
    (runBreaker o b (successTrace ts)).1.successes =
      b.successes + ts.length := by
  induction ts generalizing b with
  | nil => simp [successTrace, runBreaker, hb]
  | cons t rest ih =>
    have hstep : b.execute o t true =
        ({ b with totalRequests := b.totalRequests + 1,
                  successes := b.successes + 1 },
         ExecOutcome.succeeded) := by
      simp [CircuitBreaker.execute, CircuitBreaker.executeWith,
        CircuitBreaker.gateWith, CircuitBreaker.onSuccess, hb]
    have ihr := ih
      { b with
          totalRequests := b.totalRequests + 1
          successes := b.successes + 1 }
      hb
    simp only [successTrace, List.map_cons, runBreaker, hstep] at ihr ⊢
    refine ⟨ihr.1, ihr.2.1, ?_⟩
    rw [ihr.2.2]
    show b.successes + 1 + rest.length = b.successes + (rest.length + 1)
    omega

/-- A nonempty run of successes from HALF_OPEN that reaches the success
threshold ends with the breaker CLOSED. -/
theorem runBreaker_halfOpen_closes_of_ge (o : CircuitBreakerOptions)
    (ts : List Nat) (b : CircuitBreaker) (hb : b.state = .HALF_OPEN)
    (hge : o.successThreshold ≤ b.successes + ts.length) (hne : ts ≠ []) :
    (runBreaker o b (successTrace ts)).1.state = CircuitState.CLOSED := by
  induction ts generalizing b with
  | nil => exact absurd rfl hne
  | cons t rest ih =>
    simp only [List.length_cons] at hge
    by_cases hc : o.successThreshold ≤ b.successes + 1
    · have hstep := execute_halfOpen_closes o b t hb hc
      simp only [successTrace, List.map_cons, runBreaker, hstep]
      exact (runBreaker_closed_successes o rest _ rfl).1
    · have hnothit : ¬ o.successThreshold ≤ b.successes + 1 := hc
      have hstep : b.execute o t true =
          ({ b with totalRequests := b.totalRequests + 1,
                    successes := b.successes + 1 },
           ExecOutcome.succeeded) := by
        simp [CircuitBreaker.execute, CircuitBreaker.executeWith,
          CircuitBreaker.gateWith, CircuitBreaker.onSuccess, hb, hnothit]
      have hrne : rest ≠ [] := by
        intro hr
        rw [hr] at hge
        simp at hge
        omega
      simp only [successTrace, List.map_cons, runBreaker, hstep]
      exact ih
        { b with
            totalRequests := b.totalRequests + 1
            successes := b.successes + 1 }
        hb (by show o.successThreshold ≤ b.successes + 1 + rest.length; omega)
        hrne

/-- Claim C3: `successThreshold` consecutive successful executions, all made
while the breaker is HALF_OPEN (the trace of all but the last one leaves it
half-open), close the circuit and reset both counters to zero. -/
theorem claim_C3 (o : CircuitBreakerOptions) (b : CircuitBreaker)
    (ts : List Nat) (hb : b.state = CircuitState.HALF_OPEN)
    (hlen : ts.length = o.successThreshold)
    (hpos : 0 < o.successThreshold)
    (hhalf : (runBreaker o b (successTrace
      (ts.take (o.successThreshold - 1)))).1.state =
      CircuitState.HALF_OPEN) :
    (runBreaker o b (successTrace ts)).1.state = CircuitState.CLOSED ∧
    (runBreaker o b (successTrace ts)).1.failures = 0 ∧
    (runBreaker o b (successTrace ts)).1.successes = 0 := by
  have hdlen : (ts.drop (o.successThreshold - 1)).length = 1 := by
    rw [List.length_drop, hlen]
    omega
  obtain ⟨tl, hdl⟩ := List.length_eq_one.mp hdlen
  have hts : ts = ts.take (o.successThreshold - 1) ++ [tl] := by
    rw [← hdl]
    exact (List.take_append_drop _ _).symm
  have hlent : (ts.take (o.successThreshold - 1)).length =
      o.successThreshold - 1 := by
    rw [List.length_take, hlen]
    omega
  by_cases hth1 : o.successThreshold = 1
  · -- a single success suffices; it closes the circuit at once
    have hstep := execute_halfOpen_closes o b tl hb (by omega)
    have hts1 : ts = [tl] := by
      simpa [hth1] using hts
    rw [hts1]
    simp [successTrace, runBreaker, hstep]
  · -- the breaker enters this run with a zero success counter: otherwise the
    -- first `successThreshold - 1` successes would already close it
    have hs0 : b.successes = 0 := by
      by_contra hs
      have hone : 1 ≤ b.successes := Nat.pos_of_ne_zero hs
      have hclosed := runBreaker_halfOpen_closes_of_ge o
        (ts.take (o.successThreshold - 1)) b hb
        (by rw [hlent]; omega)
        (by
          intro he
          rw [he] at hlent
          simp at hlent
          omega)
      rw [hclosed] at hhalf
      exact absurd hhalf (by simp)
    have hA := runBreaker_halfOpen_below o
      (ts.take (o.successThreshold - 1)) b hb (by rw [hlent, hs0]; omega)
    have hlaststep := execute_halfOpen_closes o
      (runBreaker o b (successTrace (ts.take (o.successThreshold - 1)))).1
      tl hA.1 (by rw [hA.2.1, hs0, hlent]; omega)
    have htrace : successTrace ts =
        successTrace (ts.take (o.successThreshold - 1)) ++ [(tl, true)] := by
      conv_lhs => rw [hts]
      rw [successTrace_append]
      rfl
    rw [htrace, runBreaker_append]
    simp only [runBreaker]
    rw [hlaststep]
    exact ⟨rfl, rfl, rfl⟩

/-- Witness for claim C3: success threshold 2, a half-open breaker with four
recorded failures, two successes at times 10 and 20. -/
theorem claim_C3_witness :
    (runBreaker ⟨3, 100, 10000, 2⟩ ⟨4, 0, 9, 0, CircuitState.HALF_OPEN⟩
      (successTrace [10, 20])).1.state = CircuitState.CLOSED ∧
    (runBreaker ⟨3, 100, 10000, 2⟩ ⟨4, 0, 9, 0, CircuitState.HALF_OPEN⟩
      (successTrace [10, 20])).1.failures = 0 ∧
    (runBreaker ⟨3, 100, 10000, 2⟩ ⟨4, 0, 9, 0, CircuitState.HALF_OPEN⟩
      (successTrace [10, 20])).1.successes = 0 :=
  claim_C3 ⟨3, 100, 10000, 2⟩ ⟨4, 0, 9, 0, CircuitState.HALF_OPEN⟩ [10, 20]
    (by decide) (by decide) (by decide) (by decide)

/-- Claim C6, amended: on an OPEN breaker, `execute` transitions to
HALF_OPEN and invokes the wrapped function exactly when the elapsed time
since the last failure is STRICTLY GREATER than `recoveryTimeout` (for the
exponential-backoff variant: strictly greater than
`min(recoveryTimeout * backoffMultiplier ^ min(failures, 10),
maxBackoffTime)`); otherwise the call throws the circuit-open error and the
underlying operation does not run (the breaker only gains a
`totalRequests` tick). -/
theorem claim_C6_amended (o : CircuitBreakerOptions) (bm mbt : Nat)
    (b : CircuitBreaker) (now : Nat) (fnS : Bool)
    (hb : b.state = CircuitState.OPEN) :
    (o.recoveryTimeout < now - b.lastFailureTime →
      (b.execute o now fnS).2 ≠ ExecOutcome.circuitOpen ∧
      CircuitBreaker.gateWith (fun x t => x.shouldAttemptReset o t)
        { b with totalRequests := b.totalRequests + 1 } now =
        some { b with totalRequests := b.totalRequests + 1,
                      state := CircuitState.HALF_OPEN }) ∧
    (now - b.lastFailureTime ≤ o.recoveryTimeout →
      (b.execute o now fnS).2 = ExecOutcome.circuitOpen ∧
      (b.execute o now fnS).1 =
        { b with totalRequests := b.totalRequests + 1 }) ∧
    (calculateBackoffTime o bm mbt b < now - b.lastFailureTime →
      (executeExponential o bm mbt b now fnS).2 ≠ ExecOutcome.circuitOpen ∧
      CircuitBreaker.gateWith
        (fun x t => shouldAttemptResetExponential o bm mbt x t)
        { b with totalRequests := b.totalRequests + 1 } now =
        some { b with totalRequests := b.totalRequests + 1,
                      state := CircuitState.HALF_OPEN }) ∧
    (now - b.lastFailureTime ≤ calculateBackoffTime o bm mbt b →
      (executeExponential o bm mbt b now fnS).2 = ExecOutcome.circuitOpen ∧
      (executeExponential o bm mbt b now fnS).1 =
        { b with totalRequests := b.totalRequests + 1 }) := by
  refine ⟨?_, ?_, ?_, ?_⟩
  · intro h
    constructor
    · cases fnS <;>
        simp [CircuitBreaker.execute, CircuitBreaker.executeWith,
          CircuitBreaker.gateWith, CircuitBreaker.shouldAttemptReset, hb, h]
    · simp [CircuitBreaker.gateWith, CircuitBreaker.shouldAttemptReset,
        hb, h]
  · intro h
    exact execute_open_blocked o b now fnS hb h
  · intro h
    have hcb : ∀ st : CircuitState, calculateBackoffTime o bm mbt
        ⟨b.failures, b.successes, b.totalRequests + 1, b.lastFailureTime,
          st⟩ = calculateBackoffTime o bm mbt b := fun st => by
      simp [calculateBackoffTime]
    constructor
    · cases fnS <;>
        simp [executeExponential, CircuitBreaker.executeWith,
          CircuitBreaker.gateWith, shouldAttemptResetExponential, hcb, hb, h]
    · simp [CircuitBreaker.gateWith, shouldAttemptResetExponential, hcb,
        hb, h]
  · intro h
    have hcb : ∀ st : CircuitState, calculateBackoffTime o bm mbt
        ⟨b.failures, b.successes, b.totalRequests + 1, b.lastFailureTime,
          st⟩ = calculateBackoffTime o bm mbt b := fun st => by
      simp [calculateBackoffTime]
    have hno : ¬ (calculateBackoffTime o bm mbt b < now - b.lastFailureTime) :=
      Nat.not_lt.mpr h
    constructor <;>
      simp [executeExponential, CircuitBreaker.executeWith,
        CircuitBreaker.gateWith, shouldAttemptResetExponential, hcb, hb, hno]

/-- Counterexample to claim C6 as stated ("at least"): with
`recoveryTimeout = 100` and the last failure at time 0, a call at time 100
has waited at least the recovery timeout, yet the breaker (tripped by five
failures) still throws the circuit-open error without invoking the wrapped
function, because the code requires a STRICTLY greater elapsed time. -/
theorem claim_C6_counterexample :
    (runBreaker ⟨5, 100, 10000, 3⟩ CircuitBreaker.init
      (failTrace [0, 0, 0, 0, 0])).1.state = CircuitState.OPEN ∧
    CircuitBreakerOptions.recoveryTimeout ⟨5, 100, 10000, 3⟩ ≤
      100 - (runBreaker ⟨5, 100, 10000, 3⟩ CircuitBreaker.init
        (failTrace [0, 0, 0, 0, 0])).1.lastFailureTime ∧
    ((runBreaker ⟨5, 100, 10000, 3⟩ CircuitBreaker.init
      (failTrace [0, 0, 0, 0, 0])).1.execute ⟨5, 100, 10000, 3⟩ 100
      true).2 = ExecOutcome.circuitOpen := by
  decide

/-- Witness for the amended claim C6: at time 201 the plain breaker (timeout
100, tripped at time 0) lets the probe through, while the exponential
variant (backoff 100 * 2^5 = 3200) still rejects it. -/
theorem claim_C6_amended_witness :
    ((⟨5, 0, 5, 0, CircuitState.OPEN⟩ : CircuitBreaker).execute
      ⟨5, 100, 10000, 3⟩ 201 true).2 ≠ ExecOutcome.circuitOpen ∧
    (executeExponential ⟨5, 100, 10000, 3⟩ 2 300000
      ⟨5, 0, 5, 0, CircuitState.OPEN⟩ 201 true).2 =
      ExecOutcome.circuitOpen := by
  have h := claim_C6_amended ⟨5, 100, 10000, 3⟩ 2 300000
    ⟨5, 0, 5, 0, CircuitState.OPEN⟩ 201 true (by decide)
  exact ⟨(h.1 (by decide)).1, (h.2.2.2 (by decide)).1⟩

/-! ## ConnectionPool (connection-pool.ts)

The pool keeps `activeConnections : number` and a queue of
`QueuedRequest`s.  `processQueue` sorts the queue by descending priority
(ECMAScript `Array.prototype.sort` is stable, so equal priorities keep
insertion order) and pops entries while capacity is free.  The retry loop of
`executeRequest` is modelled separately as a pure function of the per-attempt
outcomes. -/

/-- The inter-retry backoff of `executeRequest`:
`Math.min(1000 * Math.pow(2, attempt), 10000)`. -/
def backoffDelay (attempt : Nat) : Nat := min (1000 * 2 ^ attempt) 10000

structure RetryRun (V E : Type) where
  invocations : Nat
  delays : List Nat
  result : Except E V
deriving Repr

/-- The retry loop of `executeRequest`, at `attempt` with `remaining` further
attempts allowed.  `attemptResult i` is the outcome of attempt `i` — the race
of the request against the per-attempt timeout (a timeout is just one kind of
error).  Records how often the request ran and the waits between attempts. -/
def retryFrom {V E : Type} (attemptResult : Nat → Except E V)
    (attempt : Nat) : Nat → RetryRun V E
  | 0 =>
    match attemptResult attempt with
    | .ok v => ⟨1, [], .ok v⟩
    | .error e => ⟨1, [], .error e⟩
  | remaining + 1 =>
    match attemptResult attempt with
    | .ok v => ⟨1, [], .ok v⟩
    | .error _ =>
      let r := retryFrom attemptResult (attempt + 1) remaining
      ⟨r.invocations + 1, backoffDelay attempt :: r.delays, r.result⟩

/-- `executeRequest`: attempts `0` through `retryAttempts`. -/
def executeRequest {V E : Type} (retryAttempts : Nat)
    (attemptResult : Nat → Except E V) : RetryRun V E :=
  retryFrom attemptResult 0 retryAttempts

structure QueuedRequest where
  id : Nat
  priority : Int
  timestamp : Nat
deriving DecidableEq, Repr

structure PoolState where
  activeConnections : Nat
  queue : List QueuedRequest
deriving DecidableEq, Repr

def initPool : PoolState := ⟨0, []⟩

/-- Stable insertion for the descending-priority sort: walk past entries of
strictly higher priority, stop before the first entry of equal or lower
priority (the inserted element comes from earlier in the original list, so
this keeps insertion order on ties). -/
def insertByPriority (x : QueuedRequest) :
    List QueuedRequest → List QueuedRequest
  | [] => [x]
  | y :: ys =>
    if x.priority < y.priority then y :: insertByPriority x ys
    else x :: y :: ys

/-- `queue.sort((a, b) => b.priority - a.priority)`: a stable sort by
descending priority. -/
def sortQueue (q : List QueuedRequest) : List QueuedRequest :=
  q.foldr insertByPriority []

/-- The `while` loop of `processQueue`: shift entries off the sorted queue
and start them while `activeConnections < maxConnections`.  Returns the new
active count, the remaining queue and the dispatched entries in order. -/
def dispatchLoop (maxConnections : Nat) (active : Nat) :
    List QueuedRequest → Nat × List QueuedRequest × List QueuedRequest
  | [] => (active, [], [])
  | x :: xs =>
    if active < maxConnections then
      let r := dispatchLoop maxConnections (active + 1) xs
      (r.1, r.2.1, x :: r.2.2)
    else (active, x :: xs, [])

/-- `processQueue()`: early return at capacity, otherwise sort and dispatch. -/
def processQueue (maxConnections : Nat) (s : PoolState) :
    PoolState × List QueuedRequest :=
  if maxConnections ≤ s.activeConnections then (s, [])
  else
    let r := dispatchLoop maxConnections s.activeConnections
      (sortQueue s.queue)
    (⟨r.1, r.2.1⟩, r.2.2)

inductive PoolEvent where
  /-- `execute(request, priority)`: push the queued request, then
  `processQueue`. -/
  | submit (r : QueuedRequest)
  /-- A dispatched request settles: `activeConnections--`, then
  `processQueue`. -/
  | complete
deriving DecidableEq, Repr

def poolStep (maxConnections : Nat) (s : PoolState) :
    PoolEvent → PoolState × List QueuedRequest
  | .submit r =>
    processQueue maxConnections ⟨s.activeConnections, s.queue ++ [r]⟩
  | .complete =>
    processQueue maxConnections ⟨s.activeConnections - 1, s.queue⟩

def runPool (maxConnections : Nat) (s : PoolState) :
    List PoolEvent → PoolState
  | [] => s
  | e :: es => runPool maxConnections (poolStep maxConnections s e).1 es

/-- Specification-side selector: the first queued entry attaining the
maximal priority ("highest priority, ties broken FIFO"). -/
def highestPriorityFirst : List QueuedRequest → Option QueuedRequest
  | [] => none
  | x :: xs =>
    match highestPriorityFirst xs with
    | none => some x
    | some m => if x.priority < m.priority then some m else some x

/-- The error used by `clearQueue`. -/
def cancellationMessage : String := "Request cancelled due to queue clear"

/-- `clearQueue()`: reject every queued entry with the cancellation error and
empty the queue; `activeConnections` is untouched.  The second component
lists the rejections as (request id, error message) pairs. -/
def clearQueue (s : PoolState) : PoolState × List (Nat × String) :=
  (⟨s.activeConnections, []⟩,
   s.queue.map (fun r => (r.id, cancellationMessage)))

/-- If every attempt up to `a + remaining` fails, the retry loop runs each
attempt once, waits the exponential backoff between attempts, and ends with
the last error. -/
theorem retryFrom_all_fail {V E : Type} (f : Nat → Except E V)
    (errAt : Nat → E) (remaining : Nat) :
    ∀ a : Nat, (∀ i, a ≤ i → i ≤ a + remaining → f i = Except.error (errAt i)) →
    retryFrom f a remaining =
      ⟨remaining + 1,
       (List.range remaining).map (fun j => backoffDelay (a + j)),
       Except.error (errAt (a + remaining))⟩ := by
  induction remaining with
  | zero =>
    intro a h
    have ha := h a (Nat.le_refl a) (Nat.le_refl a)
    simp [retryFrom, ha]
  | succ rem ih =>
    intro a h
    have ha := h a (Nat.le_refl a) (by omega)
    have ihr := ih (a + 1) (fun i h1 h2 => h i (by omega) (by omega))
    simp only [retryFrom, ha, ihr, RetryRun.mk.injEq]
    refine ⟨trivial, ?_, by rw [show a + 1 + rem = a + (rem + 1) from by omega]⟩
    rw [List.range_succ_eq_map]
    simp only [List.map_cons, List.map_map]
    have harg : ∀ j : Nat, a + 1 + j = a + (j + 1) := by
      intro j
      omega
    simp [Function.comp, harg]

/-- Claim C4: an operation failing on every attempt is invoked exactly
`retryAttempts + 1` times, the pool waits
`min(1000 * 2 ^ attempt, 10000)` ms between consecutive attempts, and the
caller is rejected with the last observed error. -/
theorem claim_C4 {V E : Type} (retryAttempts : Nat)
    (attemptResult : Nat → Except E V) (errAt : Nat → E)
    (hfail : ∀ i, i ≤ retryAttempts →
      attemptResult i = Except.error (errAt i)) :
    (executeRequest retryAttempts attemptResult).invocations =
      retryAttempts + 1 ∧
    (executeRequest retryAttempts attemptResult).delays =
      (List.range retryAttempts).map
        (fun attempt => min (1000 * 2 ^ attempt) 10000) ∧
    (executeRequest retryAttempts attemptResult).result =
      Except.error (errAt retryAttempts) := by
  have h := retryFrom_all_fail attemptResult errAt retryAttempts 0
    (fun i _ h2 => hfail i (by omega))
  unfold executeRequest
  rw [h]
  refine ⟨rfl, ?_, by simp⟩
  simp [backoffDelay]

/-- Witness for claim C4: `retryAttempts = 2`, every attempt fails — three
invocations, backoff waits 1000 ms then 2000 ms, final rejection with the
error of attempt 2. -/
theorem claim_C4_witness :
    (executeRequest 2 (fun i => (Except.error i : Except Nat Nat))).invocations
      = 3 ∧
    (executeRequest 2 (fun i => (Except.error i : Except Nat Nat))).delays
      = [1000, 2000] ∧
    (executeRequest 2 (fun i => (Except.error i : Except Nat Nat))).result
      = Except.error 2 := by
  have h := claim_C4 2 (fun i => (Except.error i : Except Nat Nat))
    (fun i => i) (fun i _ => rfl)
  refine ⟨h.1, ?_, h.2.2⟩
  rw [h.2.1]
  decide

theorem dispatchLoop_active_le (m : Nat) (q : List QueuedRequest) :
    ∀ active : Nat, active ≤ m → (dispatchLoop m active q).1 ≤ m := by
  induction q with
  | nil =>
    intro active h
    simpa [dispatchLoop] using h
  | cons x xs ih =>
    intro active h
    by_cases hlt : active < m
    · simpa [dispatchLoop, hlt] using ih (active + 1) (by omega)
    · simpa [dispatchLoop, hlt] using h

theorem processQueue_active_le (m : Nat) (s : PoolState)
    (hs : s.activeConnections ≤ m) :
    (processQueue m s).1.activeConnections ≤ m := by
  unfold processQueue
  by_cases hcap : m ≤ s.activeConnections
  · simpa [hcap] using hs
  · simpa [hcap] using
      dispatchLoop_active_le m (sortQueue s.queue) s.activeConnections hs

theorem poolStep_active_le (m : Nat) (s : PoolState) (e : PoolEvent)
    (hs : s.activeConnections ≤ m) :
    (poolStep m s e).1.activeConnections ≤ m := by
  cases e with
  | submit r => exact processQueue_active_le m _ hs
  | complete => exact processQueue_active_le m _ (by simp; omega)

theorem runPool_active_le (m : Nat) (evs : List PoolEvent) :
    ∀ s : PoolState, s.activeConnections ≤ m →
    (runPool m s evs).activeConnections ≤ m := by
  induction evs with
  | nil =>
    intro s hs
    simpa [runPool] using hs
  | cons e es ih =>
    intro s hs
    exact ih _ (poolStep_active_le m s e hs)

theorem head_insertByPriority (x : QueuedRequest) (l : List QueuedRequest) :
    (insertByPriority x l).head? =
      some (match l.head? with
        | none => x
        | some y => if x.priority < y.priority then y else x) := by
  cases l with
  | nil => rfl
  | cons y ys =>
    by_cases h : x.priority < y.priority <;> simp [insertByPriority, h]

theorem head_sortQueue (q : List QueuedRequest) :
    (sortQueue q).head? = highestPriorityFirst q := by
  induction q with
  | nil => rfl
  | cons x xs ih =>
    show (insertByPriority x (sortQueue xs)).head? =
      highestPriorityFirst (x :: xs)
    rw [head_insertByPriority]
    cases hh : (sortQueue xs).head? with
    | none =>
      have hx : highestPriorityFirst xs = none := by rw [← ih, hh]
      simp [highestPriorityFirst, hx]
    | some y =>
      have hx : highestPriorityFirst xs = some y := by rw [← ih, hh]
      by_cases hc : x.priority < y.priority <;>
        simp [highestPriorityFirst, hx, hc]

theorem highestPriorityFirst_eq_none (q : List QueuedRequest) :
    highestPriorityFirst q = none ↔ q = [] := by
  cases q with
  | nil => simp [highestPriorityFirst]
  | cons x xs =>
    cases hm : highestPriorityFirst xs with
    | none => simp [highestPriorityFirst, hm]
    | some m =>
      by_cases hc : x.priority < m.priority <;>
        simp [highestPriorityFirst, hm, hc]

theorem highestPriorityFirst_max (q : List QueuedRequest) :
    ∀ h, highestPriorityFirst q = some h →
      ∀ y ∈ q, y.priority ≤ h.priority := by
  induction q with
  | nil => intro h hh; simp [highestPriorityFirst] at hh
  | cons x xs ih =>
    intro h hh y hy
    cases hm : highestPriorityFirst xs with
    | none =>
      have hxs : xs = [] := (highestPriorityFirst_eq_none xs).mp hm
      subst hxs
      simp [highestPriorityFirst] at hh
      simp at hy
      rw [hy, hh]
    | some m =>
      simp only [highestPriorityFirst, hm] at hh
      rcases List.mem_cons.mp hy with hyx | hyxs
      · subst hyx
        by_cases hc : y.priority < m.priority
        · rw [if_pos hc] at hh
          injection hh with he
          rw [← he]
          omega
        · rw [if_neg hc] at hh
          injection hh with he
          rw [← he]
      · have hym := ih m hm y hyxs
        by_cases hc : x.priority < m.priority
        · rw [if_pos hc] at hh
          injection hh with he
          rw [← he]
          exact hym
        · rw [if_neg hc] at hh
          injection hh with he
          rw [← he]
          omega

theorem length_insertByPriority (x : QueuedRequest)
    (l : List QueuedRequest) :
    (insertByPriority x l).length = l.length + 1 := by
  induction l with
  | nil => rfl
  | cons y ys ih =>
    by_cases h : x.priority < y.priority <;> simp [insertByPriority, h, ih]

theorem sortQueue_ne_nil (q : List QueuedRequest) (h : q ≠ []) :
    sortQueue q ≠ [] := by
  cases q with
  | nil => exact absurd rfl h
  | cons x xs =>
    show insertByPriority x (sortQueue xs) ≠ []
    intro he
    have := length_insertByPriority x (sortQueue xs)
    rw [he] at this
    simp at this

/-- Claim C5: the pool never exceeds `maxConnections` active operations, and
whenever capacity is free a dispatch step starts the queued entry with the
highest priority first (ties resolved in insertion order), which is the
entry `highestPriorityFirst` selects and which has maximal priority among
all queued entries. -/
theorem claim_C5 (m : Nat) (evs : List PoolEvent) (s : PoolState)
    (hA : s.activeConnections < m) (hQ : s.queue ≠ []) :
    (runPool m initPool evs).activeConnections ≤ m ∧
    (processQueue m s).2.head? = highestPriorityFirst s.queue ∧
    (∀ y ∈ s.queue, ∀ h, highestPriorityFirst s.queue = some h →
      y.priority ≤ h.priority) := by
  refine ⟨runPool_active_le m evs initPool (by simp [initPool]), ?_, ?_⟩
  · have hcap : ¬ m ≤ s.activeConnections := by omega
    cases hsq : sortQueue s.queue with
    | nil => exact absurd hsq (sortQueue_ne_nil s.queue hQ)
    | cons z zs =>
      have : (processQueue m s).2 =
          z :: (dispatchLoop m (s.activeConnections + 1) zs).2.2 := by
        simp [processQueue, hcap, hsq, dispatchLoop, hA]
      rw [this, ← head_sortQueue, hsq]
      rfl
  · intro y hy h hh
    exact highestPriorityFirst_max s.queue h hh y hy

/-- Witness for claim C5: `maxConnections = 2`, three submissions with
priorities 0, 0, 5 (end-to-end scenario C); the priority-5 entry submitted
last is at the head of the dispatch order. -/
theorem claim_C5_witness :
    (runPool 2 initPool [PoolEvent.submit ⟨1, 0, 0⟩,
      PoolEvent.submit ⟨2, 0, 1⟩,
      PoolEvent.submit ⟨3, 5, 2⟩]).activeConnections ≤ 2 ∧
    (processQueue 2 ⟨0, [⟨1, 0, 0⟩, ⟨2, 0, 1⟩, ⟨3, 5, 2⟩]⟩).2.head? =
      highestPriorityFirst [⟨1, 0, 0⟩, ⟨2, 0, 1⟩, ⟨3, 5, 2⟩] ∧
    (⟨1, 0, 0⟩ : QueuedRequest).priority ≤
      (⟨3, 5, 2⟩ : QueuedRequest).priority := by
  have h := claim_C5 2
    [PoolEvent.submit ⟨1, 0, 0⟩, PoolEvent.submit ⟨2, 0, 1⟩,
      PoolEvent.submit ⟨3, 5, 2⟩]
    ⟨0, [⟨1, 0, 0⟩, ⟨2, 0, 1⟩, ⟨3, 5, 2⟩]⟩ (by decide) (by decide)
  exact ⟨h.1, h.2.1, h.2.2 ⟨1, 0, 0⟩ (by decide) ⟨3, 5, 2⟩ (by decide)⟩

/-- Claim C9: `clearQueue` empties the queue, rejects exactly the queued
(not-yet-dispatched) entries with the cancellation error, and leaves
`activeConnections` (the in-flight operations) untouched; a later completion
of an in-flight operation still decrements the count normally and dispatches
nothing from the now-empty queue. -/
theorem claim_C9 (s : PoolState) (m : Nat) :
    (clearQueue s).1.queue = [] ∧
    (clearQueue s).1.activeConnections = s.activeConnections ∧
    (clearQueue s).2 =
      s.queue.map (fun r => (r.id, cancellationMessage)) ∧
    (poolStep m (clearQueue s).1 PoolEvent.complete).1.activeConnections =
      s.activeConnections - 1 ∧
    (poolStep m (clearQueue s).1 PoolEvent.complete).2 = [] := by
  refine ⟨rfl, rfl, rfl, ?_, ?_⟩
  · show (processQueue m ⟨s.activeConnections - 1, []⟩).1.activeConnections
        = s.activeConnections - 1
    unfold processQueue
    by_cases hcap : m ≤ s.activeConnections - 1 <;>
      simp [hcap, sortQueue, dispatchLoop]
  · show (processQueue m ⟨s.activeConnections - 1, []⟩).2 = []
    unfold processQueue
    by_cases hcap : m ≤ s.activeConnections - 1 <;>
      simp [hcap, sortQueue, dispatchLoop]

/-! ## Cache claims -/

/-- Claim C2, failing input evaluated: with `maxSize = 1`, a `set("a", ...)`
and a `set("b", ...)` in the same millisecond (`Date.now() = 5` for both)
leave TWO entries in the cache, exceeding the bound.  `evictLRU` initialises
its running minimum to `lruTime = Date.now()` and compares entries with
strict `<`, so an entry whose `lastAccessed` equals the current time is
never selected, `lruKey` stays `""`, and nothing is evicted. -/
theorem claim_C2_code_bug_eval :
    (SmartCache.set ⟨30000, 1, false⟩
      (SmartCache.set ⟨30000, 1, false⟩ (SmartCache.empty : SmartCache Nat)
        "a" 1 none 5)
      "b" 2 none 5).entries.length = 2 ∧
    CacheOptions.maxSize ⟨30000, 1, false⟩ = 1 := by
  decide

/-- Counterexample to claim C7 as stated: it quantifies over every `ttl`,
but at `ttl = 0` the JavaScript `ttl || this.options.defaultTtl` falls back
to the 30000 ms default, so after `ttl` (0 ms) has elapsed — here at time
1 — `get` still returns the value instead of absent. -/
theorem claim_C7_counterexample :
    0 + 0 < 1 ∧
    (SmartCache.get ⟨30000, 100, false⟩
      (SmartCache.set ⟨30000, 100, false⟩ (SmartCache.empty : SmartCache Nat)
        "k" 7 (some 0) 0)
      "k" 1).1 = some 7 := by
  decide

/-- The entry a `set` writes: fresh statistics, both timestamps `now`. -/
theorem lookupKey_after_set {V : Type} (o : CacheOptions) (c : SmartCache V)
    (k : String) (v : V) (ttlArg : Option Nat) (now : Nat) :
    lookupKey k (SmartCache.set o c k v ttlArg now).entries =
      some ⟨v, now, effectiveTtl o ttlArg, 0, now⟩ := by
  unfold SmartCache.set
  simp only []
  rw [lookupKey_setKey_self]
  simp [compress]

/-- Claim C7, amended to nonzero `ttl` (for `ttl = 0` the source falls back
to `defaultTtl`): `set(k, v, ttl)` followed immediately by `get(k)` returns
`v`; a `get(k)` after `ttl` has elapsed returns absent and deletes the
entry; `get` on a key that was never set returns absent and leaves the
cache unchanged. -/
theorem claim_C7_amended {V : Type} (o : CacheOptions) (c c0 : SmartCache V)
    (k k0 : String) (v : V) (ttl now now2 t0 : Nat)
    (httl : ttl ≠ 0)
    (hexp : now + ttl < now2)
    (h0 : lookupKey k0 c0.entries = none) :
    (SmartCache.get o (SmartCache.set o c k v (some ttl) now) k now).1 =
      some v ∧
    (SmartCache.get o (SmartCache.set o c k v (some ttl) now) k now2).1 =
      none ∧
    lookupKey k
      ((SmartCache.get o (SmartCache.set o c k v (some ttl) now) k
        now2).2.entries) = none ∧
    SmartCache.get o c0 k0 t0 = (none, c0) := by
  have hval : effectiveTtl o (some ttl) = ttl := by
    simp [effectiveTtl, httl]
  have hsk := lookupKey_after_set o c k v (some ttl) now
  rw [hval] at hsk
  refine ⟨?_, ?_, ?_, ?_⟩
  · unfold SmartCache.get
    rw [hsk]
    simp [decompress]
  · unfold SmartCache.get
    rw [hsk]
    have hex : ttl < now2 - now := by omega
    simp [hex]
  · unfold SmartCache.get
    rw [hsk]
    have hex : ttl < now2 - now := by omega
    simp [hex, lookupKey_removeKey_self]
  · simp [SmartCache.get, h0]

/-- Witness for the amended claim C7: `ttl = 10`, set at time 0, read back
at time 0 (hit), read at time 11 (expired and deleted), and a read of a key
that was never set. -/
theorem claim_C7_amended_witness :
    (SmartCache.get ⟨30000, 100, false⟩
      (SmartCache.set ⟨30000, 100, false⟩ (SmartCache.empty : SmartCache Nat)
        "k" 7 (some 10) 0) "k" 0).1 = some 7 ∧
    (SmartCache.get ⟨30000, 100, false⟩
      (SmartCache.set ⟨30000, 100, false⟩ (SmartCache.empty : SmartCache Nat)
        "k" 7 (some 10) 0) "k" 11).1 = none ∧
    lookupKey "k"
      ((SmartCache.get ⟨30000, 100, false⟩
        (SmartCache.set ⟨30000, 100, false⟩
          (SmartCache.empty : SmartCache Nat) "k" 7 (some 10) 0) "k"
        11).2.entries) = none ∧
    SmartCache.get ⟨30000, 100, false⟩ (SmartCache.empty : SmartCache Nat)
      "x" 0 = (none, (SmartCache.empty : SmartCache Nat)) :=
  claim_C7_amended ⟨30000, 100, false⟩ SmartCache.empty SmartCache.empty
    "k" "x" 7 10 0 11 0 (by decide) (by decide) (by decide)

/-- Claim C10: a `set(k, v)` on a cache already at `maxSize` runs the LRU
eviction even though `k` is already present, so the entry `j` selected by
the eviction scan — a different, live (unexpired) entry — is deleted before
`k` is overwritten in place, and the cache even shrinks by one entry. -/
theorem claim_C10 {V : Type} (o : CacheOptions) (c : SmartCache V)
    (k j : String) (v : V) (ttlArg : Option Nat) (now : Nat)
    (ej ek : CacheEntry V)
    (hfull : o.maxSize ≤ c.entries.length)
    (hke : lookupKey k c.entries = some ek)
    (hj : (lruScan now c.entries).1 = j)
    (hj0 : j ≠ "")
    (hjk : j ≠ k)
    (hje : lookupKey j c.entries = some ej)
    (hlive : now - ej.timestamp ≤ ej.ttl) :
    lookupKey j (SmartCache.set o c k v ttlArg now).entries = none ∧
    Option.map CacheEntry.data
      (lookupKey k (SmartCache.set o c k v ttlArg now).entries) = some v ∧
    (SmartCache.set o c k v ttlArg now).entries.length <
      c.entries.length := by
  have hevict : SmartCache.evictLRU c now = ⟨removeKey j c.entries⟩ := by
    unfold SmartCache.evictLRU
    rw [hj]
    simp [hj0]
  have hset : (SmartCache.set o c k v ttlArg now).entries =
      setKey k
        ⟨if o.enableCompression then compress v else v, now,
          effectiveTtl o ttlArg, 0, now⟩
        (removeKey j c.entries) := by
    unfold SmartCache.set
    simp [hfull, hevict]
  have hkrem : lookupKey k (removeKey j c.entries) = some ek := by
    rw [lookupKey_removeKey_ne (Ne.symm hjk), hke]
  refine ⟨?_, ?_, ?_⟩
  · rw [hset, lookupKey_setKey_ne hjk, lookupKey_removeKey_self]
  · rw [hset, lookupKey_setKey_self]
    simp [compress]
  · rw [hset, length_setKey_of_mem _ _ _ (by rw [hkrem]; rfl)]
    exact length_removeKey_lt j c.entries (by rw [hje]; rfl)

/-- Witness for claim C10: `maxSize = 2`, cache holding live entries `"j"`
(last accessed at 0) and `"k"` (last accessed at 1); overwriting `"k"` at
time 5 deletes `"j"` and leaves a single entry. -/
theorem claim_C10_witness :
    lookupKey "j" (SmartCache.set ⟨100, 2, false⟩
      ⟨[("j", ⟨10, 0, 100, 0, 0⟩), ("k", ⟨20, 1, 100, 0, 1⟩)]⟩
      "k" 99 none 5).entries = none ∧
    Option.map CacheEntry.data
      (lookupKey "k" (SmartCache.set ⟨100, 2, false⟩
        ⟨[("j", ⟨10, 0, 100, 0, 0⟩), ("k", ⟨20, 1, 100, 0, 1⟩)]⟩
        "k" 99 none 5).entries) = some 99 ∧
    (SmartCache.set ⟨100, 2, false⟩
      ⟨[("j", ⟨10, 0, 100, 0, 0⟩), ("k", ⟨20, 1, 100, 0, 1⟩)]⟩
      "k" 99 none 5).entries.length <
      ([("j", (⟨10, 0, 100, 0, 0⟩ : CacheEntry Nat)),
        ("k", ⟨20, 1, 100, 0, 1⟩)] : List (String × CacheEntry Nat)).length :=
  claim_C10 ⟨100, 2, false⟩
    ⟨[("j", ⟨10, 0, 100, 0, 0⟩), ("k", ⟨20, 1, 100, 0, 1⟩)]⟩
    "k" "j" 99 none 5 ⟨10, 0, 100, 0, 0⟩ ⟨20, 1, 100, 0, 1⟩
    (by decide) (by decide) (by decide) (by decide) (by decide) (by decide)
    (by decide)

/-! ## OptimizedDownloadApiSdk (the optimized client)

`executeWithOptimizations(operation, requestFn, cacheKey?, useCache)` checks
the cache, then the in-flight `requestQueue : Map<string, Promise>`; on a
dedup hit it returns the stored promise unchanged, otherwise it starts the
underlying execution, stores the new promise under the operation key, and a
`.finally` handler deletes the entry when the promise settles.  Promises are
modelled by numeric ids; `started` records the promise ids whose underlying
execution was started. -/

/-- Operation key of `createJob`: `"createJob_" + JSON.stringify(request)`. -/
def createJobOperationKey (requestJson : String) : String :=
  "createJob_" ++ requestJson

/-- Operation key of `getJobStatus`. -/
def getJobStatusOperationKey (jobId : String) : String :=
  "getJobStatus_" ++ jobId

/-- Operation key of `cancelJob`. -/
def cancelJobOperationKey (jobId : String) : String :=
  "cancelJob_" ++ jobId

/-- Operation key of `downloadJobZip`. -/
def downloadJobZipOperationKey (jobId : String) : String :=
  "downloadJobZip_" ++ jobId

/-- Cache key used by `getJobStatus`. -/
def jobStatusCacheKey (jobId : String) : String := "job_status_" ++ jobId

structure OptimizedState (V : Type) where
  cache : SmartCache V
  /-- `requestQueue`: operation key ↦ id of the in-flight promise. -/
  requestQueue : List (String × Nat)
  /-- Next fresh promise id. -/
  nextPromise : Nat
  /-- Promise ids whose underlying execution was started. -/
  started : List Nat
deriving DecidableEq, Repr

inductive OptResult (V : Type) where
  /-- A cache hit returned immediately. -/
  | cached (v : V)
  /-- The caller got (a reference to) this promise. -/
  | pending (pid : Nat)
deriving DecidableEq, Repr

/-- The cache lookup at the top of `executeWithOptimizations`:
`if (useCache && cacheKey && this.options.enableCache)`. -/
def cacheCheck {V : Type} (o : CacheOptions) (enableCache : Bool)
    (s : OptimizedState V) (cacheKey : Option String) (useCache : Bool)
    (now : Nat) : Option V × SmartCache V :=
  match cacheKey with
  | some ck =>
    if useCache ∧ enableCache then SmartCache.get o s.cache ck now
    else (none, s.cache)
  | none => (none, s.cache)

def executeWithOptimizations {V : Type} (o : CacheOptions)
    (enableCache : Bool) (s : OptimizedState V) (operation : String)
    (cacheKey : Option String) (useCache : Bool) (now : Nat) :
    OptResult V × OptimizedState V :=
  let cc := cacheCheck o enableCache s cacheKey useCache now
  match cc.1 with
  | some v => (.cached v, { s with cache := cc.2 })
  | none =>
    let s1 : OptimizedState V := { s with cache := cc.2 }
    match lookupKey operation s1.requestQueue with
    | some pid => (.pending pid, s1)
    | none =>
      let pid := s1.nextPromise
      (.pending pid,
       { s1 with
           requestQueue := setKey operation pid s1.requestQueue
           nextPromise := pid + 1
           started := s1.started ++ [pid] })

/-- The `.finally` handler: once the shared promise settles, the dedup entry
is deleted from `requestQueue`. -/
def settleOperation {V : Type} (s : OptimizedState V) (operation : String) :
    OptimizedState V :=
  { s with requestQueue := removeKey operation s.requestQueue }

/-- Claim C8: invoking an SDK operation (createJob / getJobStatus /
cancelJob / downloadJobZip) while an invocation with the identical
operation key is still in flight starts no new underlying execution
(`started` is unchanged), hands the caller the very promise already in
flight, adds no dedup entry, and the dedup entry is removed once the shared
promise settles. -/
theorem claim_C8 {V : Type} (o : CacheOptions) (enableCache : Bool)
    (s : OptimizedState V) (operation : String) (cacheKey : Option String)
    (useCache : Bool) (now : Nat) (pid : Nat)
    (hop : (∃ a, operation = createJobOperationKey a) ∨
      (∃ a, operation = getJobStatusOperationKey a) ∨
      (∃ a, operation = cancelJobOperationKey a) ∨
      (∃ a, operation = downloadJobZipOperationKey a))
    (hflight : lookupKey operation s.requestQueue = some pid)
    (hmiss : (cacheCheck o enableCache s cacheKey useCache now).1 = none) :
    (executeWithOptimizations o enableCache s operation cacheKey useCache
      now).1 = OptResult.pending pid ∧
    (executeWithOptimizations o enableCache s operation cacheKey useCache
      now).2.started = s.started ∧
    (executeWithOptimizations o enableCache s operation cacheKey useCache
      now).2.requestQueue = s.requestQueue ∧
    lookupKey operation
      (settleOperation
        (executeWithOptimizations o enableCache s operation cacheKey useCache
          now).2 operation).requestQueue = none := by
  simp [executeWithOptimizations, hmiss, hflight, settleOperation,
    lookupKey_removeKey_self]

/-- Witness for claim C8: a `getJobStatus("j1")` call while promise 7 for
the same operation key is in flight and the status cache is empty. -/
theorem claim_C8_witness :
    (executeWithOptimizations ⟨30000, 100, false⟩ true
      (⟨SmartCache.empty, [("getJobStatus_j1", 7)], 8, [7]⟩ :
        OptimizedState Nat)
      (getJobStatusOperationKey "j1") (some (jobStatusCacheKey "j1")) true
      0).1 = OptResult.pending 7 ∧
    (executeWithOptimizations ⟨30000, 100, false⟩ true
      (⟨SmartCache.empty, [("getJobStatus_j1", 7)], 8, [7]⟩ :
        OptimizedState Nat)
      (getJobStatusOperationKey "j1") (some (jobStatusCacheKey "j1")) true
      0).2.started = [7] ∧
    (executeWithOptimizations ⟨30000, 100, false⟩ true
      (⟨SmartCache.empty, [("getJobStatus_j1", 7)], 8, [7]⟩ :
        OptimizedState Nat)
      (getJobStatusOperationKey "j1") (some (jobStatusCacheKey "j1")) true
      0).2.requestQueue = [("getJobStatus_j1", 7)] ∧
    lookupKey (getJobStatusOperationKey "j1")
      (settleOperation
        (executeWithOptimizations ⟨30000, 100, false⟩ true
          (⟨SmartCache.empty, [("getJobStatus_j1", 7)], 8, [7]⟩ :
            OptimizedState Nat)
          (getJobStatusOperationKey "j1") (some (jobStatusCacheKey "j1"))
          true 0).2
        (getJobStatusOperationKey "j1")).requestQueue = none :=
  claim_C8 ⟨30000, 100, false⟩ true
    ⟨SmartCache.empty, [("getJobStatus_j1", 7)], 8, [7]⟩
    (getJobStatusOperationKey "j1") (some (jobStatusCacheKey "j1")) true 0 7
    (Or.inr (Or.inl ⟨"j1", rfl⟩)) (by decide) (by decide)

end WallWhale
